import Mathlib

set_option autoImplicit false

/-!
Verification of the shell subsystem of `IotWebConf18ShellCommands.ino`
(command registry, line assembler, command parser, dispatcher).

C strings are modelled as `List Char` (the characters up to the
terminating null byte); `Serial` output is modelled as the list of
complete output lines each operation produces.  Machine integers:
`long` on the target is 32 bits, so `strtol` values live in
`[-2^31, 2^31-1]`, with the standard clamping on overflow.
-/

namespace Shell

/-- A C string value: the characters before the terminating null. -/
abbrev CStr := List Char

def MAX_COMMANDS : Nat := 10

def MAX_COMMAND_SIZE : Nat := 40

/-- `enum input_type { NONE, INT32, STRING }`. -/
inductive InputType where
  | NONE
  | INT32
  | STRING
deriving DecidableEq, Repr

/-- A registry entry (`struct Command`).  The function pointer union is
opaque to this development: dispatching is modelled by reporting which
entry was invoked and with which argument, so the pointer itself is not
part of the model. -/
structure Command where
  name : CStr
  doc : CStr
  parameter_type : InputType
deriving DecidableEq, Repr

/-- `struct CommandLine`.  `function_name` and `str_argument` are the
C-string values currently held by the two 40-byte buffers. -/
structure CommandLine where
  function_name : CStr
  argument_type : InputType
  int_argument : Int
  str_argument : CStr
deriving DecidableEq, Repr

/-! ## C library functions used by the shell -/

/-- Value semantics of `strlcpy(dst, src, size)`: the C-string value held
by `dst` afterwards.  `size` is converted to `size_t`, so a negative
`size` wraps to a huge bound and the whole source is copied; `size = 0`
writes nothing, leaving the old contents; otherwise at most `size - 1`
characters are copied and a null terminator is written. -/
def strlcpyVal (old src : CStr) (size : Int) : CStr :=
  if size = 0 then old
  else if size < 0 then src
  else src.take (size.toNat - 1)

/-- Number of bytes `strlcpy(dst, src, size)` writes into `dst`
(copied characters plus the null terminator when `size ≠ 0`). -/
def strlcpyBytes (src : CStr) (size : Int) : Nat :=
  if size = 0 then 0
  else if size < 0 then src.length + 1
  else min (size.toNat - 1) src.length + 1

/-- `isspace` for the `"C"` locale. -/
def isSpaceChar (c : Char) : Bool :=
  c = ' ' || c = '\t' || c = '\n' || c = Char.ofNat 11 || c = Char.ofNat 12 || c = '\r'

/-- The numeric value of `c` read as a digit (digits `0`-`9`, letters
`a`-`z` / `A`-`Z` for values 10-35; 99 marks a non-digit). -/
def rawDigitVal (c : Char) : Nat :=
  if '0' ≤ c ∧ c ≤ '9' then c.toNat - '0'.toNat
  else if 'a' ≤ c ∧ c ≤ 'z' then c.toNat - 'a'.toNat + 10
  else if 'A' ≤ c ∧ c ≤ 'Z' then c.toNat - 'A'.toNat + 10
  else 99

/-- The numeric value of `c` as a digit in base `base`, or `none` when
`c` is not a digit of that base. -/
def digitVal? (base : Nat) (c : Char) : Option Nat :=
  if rawDigitVal c < base then some (rawDigitVal c) else none

def isDigitOf (base : Nat) (c : Char) : Bool := (digitVal? base c).isSome

def LONG_MAX : Int := 2 ^ 31 - 1

def LONG_MIN : Int := -(2 ^ 31)

/-- `strtol`'s overflow behaviour: the value is clamped to
`[LONG_MIN, LONG_MAX]` (32-bit `long` on the target). -/
def clampLong (v : Int) : Int :=
  if v > LONG_MAX then LONG_MAX else if v < LONG_MIN then LONG_MIN else v

/-- The value of a digit string read in base `base`. -/
def natOfDigits (base : Nat) (ds : List Nat) : Nat :=
  ds.foldl (fun a d => a * base + d) 0

/-- The optional-sign step of `strtol`: returns the sign, the number of
characters the sign occupies (0 or 1), and the rest of the string. -/
def splitSign (t : CStr) : Int × Nat × CStr :=
  match t with
  | [] => (1, 0, [])
  | c :: r =>
    if c = '+' then (1, 1, r)
    else if c = '-' then (-1, 1, r)
    else (1, 0, c :: r)

/-- Whether the first character is a hexadecimal digit (the look-ahead
`strtol` performs before committing to a `0x` prefix). -/
def headIsHexDigit (l : CStr) : Bool :=
  match l.head? with
  | some d => isDigitOf 16 d
  | none => false

/-- The base-detection step of `strtol(…, 0)` after the optional sign:
`0x`/`0X` followed by a hex digit selects base 16 (consuming the two
prefix characters), a leading `0` selects base 8 (the `0` itself is a
digit), anything else selects base 10.  Returns the base, the number of
prefix characters consumed, and the string the digits are read from. -/
def splitBasePrefix (s2 : CStr) : Nat × Nat × CStr :=
  match s2 with
  | [] => (10, 0, [])
  | c :: r =>
    if c = '0' then
      match r with
      | [] => (8, 0, c :: r)
      | x :: r2 =>
        if (x = 'x' ∨ x = 'X') ∧ headIsHexDigit r2 = true then (16, 2, r2)
        else (8, 0, c :: r)
    else (10, 0, c :: r)

/-- `strtol(t, &end, 0)` on a string `t` with the leading whitespace
already removed: returns `(value, consumed)` where `consumed` is the
number of characters of `t` the conversion used (`end = t + consumed`).
When no digits are converted the result is `(0, 0)` (`end` is reset to
the start of the subject string). -/
def strtolNoWs (t : CStr) : Int × Nat :=
  let s := splitSign t
  let b := splitBasePrefix s.2.2
  let digits := b.2.2.takeWhile (isDigitOf b.1)
  if digits.isEmpty then (0, 0)
  else
    (clampLong (s.1 * (natOfDigits b.1 (digits.map fun c => (digitVal? b.1 c).getD 0) : Int)),
     s.2.1 + b.2.1 + digits.length)

/-- `strtol(s, &end, 0)`: skips leading whitespace, then converts.
Returns `(value, consumed)` with `end = s + consumed`; when no digits
are converted, `end` is the original `s` (`consumed = 0`). -/
def strtol0 (s : CStr) : Int × Nat :=
  let ws := s.takeWhile isSpaceChar
  let t := s.dropWhile isSpaceChar
  let r := strtolNoWs t
  if r.2 = 0 then (r.1, 0) else (r.1, ws.length + r.2)

/-- Sign of `strcmp(a, b)` (byte-wise comparison; for UTF-8 data,
code-point order and byte order agree). -/
def strcmp : CStr → CStr → Int
  | [], [] => 0
  | [], _ :: _ => -1
  | _ :: _, [] => 1
  | a :: as, b :: bs =>
    if a.toNat < b.toNat then -1
    else if b.toNat < a.toNat then 1
    else strcmp as bs

/-! ## Output lines (exact `Serial` wording) -/

/-- The apostrophe character (codepoint 39). -/
def squote : Char := Char.ofNat 39

def receivedEmptyLine : CStr := "Received empty command".toList

def tooManyLine : CStr := "Too many commands have been defined.".toList

/-- `'cmd' not supported. Available commands :` -/
def notSupportedLine (cmd : CStr) : CStr :=
  [squote] ++ cmd ++ [squote] ++ " not supported. Available commands :".toList

/-- One help entry: two spaces, the name, a space, the doc, a period. -/
def helpLine (c : Command) : CStr :=
  "  ".toList ++ c.name ++ " ".toList ++ c.doc ++ ".".toList

/-- The `Calling : name(...)` trace printed before a handler runs. -/
def callingLine (cl : CommandLine) : CStr :=
  match cl.argument_type with
  | .NONE => "Calling : ".toList ++ cl.function_name ++ "()".toList
  | .INT32 =>
    "Calling : ".toList ++ cl.function_name ++ "(".toList ++
      (toString cl.int_argument).toList ++ ")".toList
  | .STRING =>
    "Calling : ".toList ++ cl.function_name ++ ['(', squote] ++
      cl.str_argument ++ [squote, ')']

/-! ## Command parser -/

/-- Number of characters `strlcpy` writes into
`command_line.function_name` during `parseCommand` (instruments the two
`strlcpy(command_line.function_name, …)` calls of the source with
`strlcpyBytes`). -/
def parseFnameBytes (command : CStr) : Nat :=
  if command.length = 0 then 0
  else
    match command.findIdx? (· = ' ') with
    | none => strlcpyBytes command (MAX_COMMAND_SIZE : Int)
    | some idx => strlcpyBytes command ((idx : Int) + 1)

/-- `parseCommand(command, command_line)`: splits `command` at its first
space into `function_name` and `str_argument`, classifies the argument
with `strtol(str_argument, &end, 0)` (`STRING` when `*end ≠ 0`, else
`INT32`), and updates the fields of `command_line` exactly as the source
does (an empty command only sets `argument_type`; a command without a
space sets `argument_type` and `function_name`).  Returns the updated
record and the output lines printed. -/
def parseCommand (command : CStr) (cl : CommandLine) : CommandLine × List CStr :=
  if command.length = 0 then
    ({ cl with argument_type := .NONE }, [receivedEmptyLine])
  else
    match command.findIdx? (· = ' ') with
    | none =>
      ({ cl with
          argument_type := .NONE,
          function_name := strlcpyVal cl.function_name command (MAX_COMMAND_SIZE : Int) }, [])
    | some idx =>
      let fn := strlcpyVal cl.function_name command ((idx : Int) + 1)
      let sa := strlcpyVal cl.str_argument (command.drop (idx + 1))
        ((MAX_COMMAND_SIZE : Int) - (idx : Int) - 1)
      let r := strtol0 sa
      let ty : InputType := if r.2 < sa.length then .STRING else .INT32
      ({ cl with
          function_name := fn, str_argument := sa,
          int_argument := r.1, argument_type := ty }, [])

/-! ## Command registry -/

/-- Registration result: the registry afterwards, the `addCommand`
status, and the output printed. -/
structure DefineResult where
  registry : List Command
  ok : Bool
  output : List CStr
deriving DecidableEq, Repr

/-- Shared body of `defineCommand` / `defineIntCommand` /
`defineStringCommand`: `addCommand` checks `commands_count <
MAX_COMMANDS`; on success the caller fills in the function pointer and
parameter type at slot `commands_count` and increments the count, which
on the list of live entries is an append; on failure it prints a
warning and leaves the registry alone. -/
def defineCommandKind (cmds : List Command) (name : CStr) (k : InputType)
    (doc : CStr) : DefineResult :=
  if cmds.length < MAX_COMMANDS then
    { registry := cmds ++ [{ name := name, doc := doc, parameter_type := k }],
      ok := true, output := [] }
  else
    { registry := cmds, ok := false, output := [tooManyLine] }

def defineCommand (cmds : List Command) (name doc : CStr) : DefineResult :=
  defineCommandKind cmds name .NONE doc

def defineIntCommand (cmds : List Command) (name doc : CStr) : DefineResult :=
  defineCommandKind cmds name .INT32 doc

def defineStringCommand (cmds : List Command) (name doc : CStr) : DefineResult :=
  defineCommandKind cmds name .STRING doc

/-! ## Help listing -/

/-- `compareCommandNames` orders entries by `strcmp` on their names. -/
def nameLe (a b : Command) : Bool := strcmp a.name b.name ≤ 0

def insertSortedCmd (c : Command) : List Command → List Command
  | [] => [c]
  | d :: ds => if nameLe c d then c :: d :: ds else d :: insertSortedCmd c ds

/-- The reordering `qsort(commands, commands_count, …,
compareCommandNames)` performs on the live entries: the array ends up
ascending under `compareCommandNames` (modelled by insertion sort; with
distinct names — the registry's intended use — the sorted order is
unique, so the choice of sorting algorithm is immaterial). -/
def sortCommands : List Command → List Command
  | [] => []
  | c :: cs => insertSortedCmd c (sortCommands cs)

/-- `listAvailableCommands()`: sorts the registry in place with `qsort`,
then prints one `helpLine` per entry in the sorted order.  Returns the
registry afterwards and the printed lines. -/
def listAvailableCommands (cmds : List Command) : List Command × List CStr :=
  (sortCommands cmds, (sortCommands cmds).map helpLine)

/-! ## Dispatcher -/

/-- The argument value a handler is invoked with. -/
inductive ArgVal where
  | noArg
  | intArg (n : Int)
  | strArg (s : CStr)
deriving DecidableEq, Repr

/-- The loop condition of `execute`:
`!strcmp(input.function_name, commands[i].name) && input.argument_type
== commands[i].parameter_type`. -/
def cmdMatches (cl : CommandLine) (c : Command) : Bool :=
  decide (c.name = cl.function_name ∧ c.parameter_type = cl.argument_type)

/-- Result of `execute`: which registry entry's handler was invoked (its
index and the argument passed), the output printed, and the registry
contents afterwards (the help fallback sorts the registry in place). -/
structure ExecResult where
  invoked : Option (Nat × ArgVal)
  output : List CStr
  registry : List Command
deriving DecidableEq, Repr

/-- `execute(command_str)`: parses `command_str` into a freshly declared
(uninitialized) `CommandLine` — modelled by the explicit `fresh`
argument holding whatever the stack memory contained — then scans the
registry in order for the first entry matching on name and parameter
type; on a match prints the `Calling :` trace and invokes the handler;
otherwise prints the quoted input, the `not supported` notice and the
sorted help listing. -/
def execute (command_str : CStr) (cmds : List Command) (fresh : CommandLine) : ExecResult :=
  let p := parseCommand command_str fresh
  let input := p.1
  match cmds.findIdx? (cmdMatches input) with
  | some i =>
    let arg : ArgVal :=
      match input.argument_type with
      | .NONE => .noArg
      | .INT32 => .intArg input.int_argument
      | .STRING => .strArg input.str_argument
    { invoked := some (i, arg),
      output := p.2 ++ [callingLine input],
      registry := cmds }
  | none =>
    { invoked := none,
      output := p.2 ++ [notSupportedLine command_str] ++ (listAvailableCommands cmds).2,
      registry := (listAvailableCommands cmds).1 }

/-! ## Line assembler -/

/-- `processSerialInput(input_byte)`: the static state is the pair
`(input_line, input_pos)`, modelled as the list of characters stored at
positions `0 … input_pos - 1` (characters beyond the cursor are dead: a
newline terminates the line at the cursor before executing it).
Returns the new state and, on a newline, the completed line handed to
`execute`. -/
def processSerialInput (st : CStr) (b : Char) : CStr × Option CStr :=
  if b = '\n' then ([], some st)
  else if b = '\r' then (st, none)
  else if b = Char.ofNat 8 then (st.dropLast, none)
  else if st.length < MAX_COMMAND_SIZE - 1 then (st ++ [b], none)
  else (st, none)

/-- Feeds a list of bytes through `processSerialInput` (the
`checkSerialInput` loop): returns the final state and the complete
lines handed to `execute`, in order. -/
def runAssembler (st : CStr) : List Char → CStr × List CStr
  | [] => (st, [])
  | b :: bs =>
    let step := processSerialInput st b
    let rest := runAssembler step.1 bs
    (rest.1, (match step.2 with | some l => [l] | none => []) ++ rest.2)

/-! ## Spec-side definition for the integer-classification claim -/

/-- The body of a C-style integer literal, after the optional sign.
Follows the spec's words, not the code: "optional `0x`/`0` prefix, else
decimal" with at least one digit and "no trailing non-numeric
characters". -/
def bodyLiteral (u : CStr) : Bool :=
  match u with
  | [] => false
  | c :: r =>
    if c = '0' then
      match r with
      | [] => true
      | x :: r2 =>
        if x = 'x' ∨ x = 'X' then decide (r2 ≠ []) && r2.all (isDigitOf 16)
        else (x :: r2).all (isDigitOf 8)
    else (c :: r).all (isDigitOf 10)

/-- Strips one optional leading sign character. -/
def stripSignSpec (s : CStr) : CStr :=
  match s with
  | [] => []
  | c :: r => if c = '+' ∨ c = '-' then r else c :: r

/-- Written from the spec's words (§4.3): the text "parses entirely as a
signed integer literal (including hexadecimal forms such as `0xFF`, base
auto-detected) with no trailing non-numeric characters" — an optional
sign followed by `0x`/`0X` and hex digits, or `0` and octal digits, or
at least one decimal digit, with nothing after. -/
def isCIntegerLiteral (s : CStr) : Bool :=
  bodyLiteral (stripSignSpec s)

/-! ## Concrete data used by counterexamples and witnesses -/

/-- A possible content of the uninitialized `CommandLine input` variable
`execute` declares on its stack. -/
def freshCL : CommandLine :=
  { function_name := ['x'], argument_type := .NONE, int_argument := 7, str_argument := ['y'] }

def cmdReset : Command :=
  { name := "reset".toList, doc := "(Restarts the ESP)".toList, parameter_type := .NONE }

def cmdAp : Command :=
  { name := "ap".toList, doc := "0/1 (Enables/disables access point)".toList,
    parameter_type := .INT32 }

def cmdA : Command := { name := ['a'], doc := ['e'], parameter_type := .NONE }

def cmdB : Command := { name := ['b'], doc := ['d'], parameter_type := .NONE }

/-- A possible content of the uninitialized `CommandLine` stack variable
in which `function_name` happens to hold `"reset"`. -/
def staleCL : CommandLine :=
  { function_name := "reset".toList, argument_type := .STRING,
    int_argument := 3, str_argument := ['q'] }

/-- A registry already filled to its capacity of `MAX_COMMANDS` entries. -/
def tenCommands : List Command :=
  (List.range MAX_COMMANDS).map
    (fun i => { name := [Char.ofNat (97 + i)], doc := ['d'], parameter_type := .NONE })

/-- `strcmp a.name b.name ≤ 0`: the order `compareCommandNames` induces
on registry entries. -/
def strcmpLeName (a b : Command) : Prop := strcmp a.name b.name ≤ 0

/-! ## Helper lemmas -/

theorem findIdx?_append_cons_go {α : Type} (p : α → Bool) (y : α) (rest : List α) :
    ∀ (xs : List α) (i : Nat), (∀ c ∈ xs, p c = false) → p y = true →
      List.findIdx? p (xs ++ y :: rest) i = some (i + xs.length)
  | [], i, _, hy => by simp [List.findIdx?_cons, hy]
  | a :: as, i, h, hy => by
    have ha : p a = false := h a (by simp)
    rw [List.cons_append, List.findIdx?_cons, if_neg (by simp [ha])]
    rw [findIdx?_append_cons_go p y rest as (i + 1) (fun c hc => h c (by simp [hc])) hy]
    congr 1
    simp
    omega

theorem findIdx?_append_cons {α : Type} (p : α → Bool) (y : α) (rest xs : List α)
    (h : ∀ c ∈ xs, p c = false) (hy : p y = true) :
    List.findIdx? p (xs ++ y :: rest) = some xs.length := by
  simpa using findIdx?_append_cons_go p y rest xs 0 h hy

theorem findIdx?_isSome_iff {α : Type} (p : α → Bool) (l : List α) :
    (List.findIdx? p l).isSome = true ↔ ∃ x ∈ l, p x = true := by
  rw [List.findIdx?_isSome, List.any_eq_true]

theorem drop_append_cons {α : Type} (xs : List α) (y : α) (rest : List α) :
    (xs ++ y :: rest).drop (xs.length + 1) = rest := by
  have h : xs ++ y :: rest = (xs ++ [y]) ++ rest := by simp
  have hl : (xs ++ [y]).length = xs.length + 1 := by simp
  rw [h, ← hl, List.drop_left]

theorem strcmp_nil_le (b : CStr) : strcmp [] b ≤ 0 := by
  cases b <;> simp [strcmp]

theorem strcmp_le_total : ∀ a b : CStr, strcmp a b ≤ 0 ∨ strcmp b a ≤ 0
  | [], b => Or.inl (strcmp_nil_le b)
  | _ :: _, [] => Or.inr (strcmp_nil_le _)
  | x :: as, y :: bs => by
    rcases Nat.lt_trichotomy x.toNat y.toNat with h | h | h
    · left
      simp [strcmp, h]
    · have h1 : ¬ x.toNat < y.toNat := by omega
      have h2 : ¬ y.toNat < x.toNat := by omega
      rcases strcmp_le_total as bs with ih | ih
      · left
        simpa [strcmp, h1, h2] using ih
      · right
        simpa [strcmp, h1, h2] using ih
    · right
      simp [strcmp, h]

theorem strcmp_le_trans : ∀ a b c : CStr, strcmp a b ≤ 0 → strcmp b c ≤ 0 → strcmp a c ≤ 0
  | [], _, c, _, _ => strcmp_nil_le c
  | _ :: _, [], _, h1, _ => by simp [strcmp] at h1
  | _ :: _, _ :: _, [], _, h2 => by simp [strcmp] at h2
  | x :: as, y :: bs, z :: cs, h1, h2 => by
    have hxy : ¬ y.toNat < x.toNat := by
      intro hlt
      simp [strcmp, hlt, Nat.lt_asymm hlt] at h1
    have hyz : ¬ z.toNat < y.toNat := by
      intro hlt
      simp [strcmp, hlt, Nat.lt_asymm hlt] at h2
    by_cases hxz : x.toNat < z.toNat
    · simp [strcmp, hxz]
    · have hx_eq_y : ¬ x.toNat < y.toNat → x.toNat = y.toNat ∨ x.toNat < y.toNat := by omega
      have hzx : ¬ x.toNat < z.toNat := hxz
      have hxy2 : x.toNat ≤ y.toNat ∨ x.toNat < y.toNat := by
        by_cases h : x.toNat < y.toNat
        · exact Or.inr h
        · exact Or.inl (by omega)
      by_cases hlt1 : x.toNat < y.toNat
      · -- then x < y ≤ z contradicts ¬ x < z
        exact absurd (by omega : x.toNat < z.toNat) hxz
      · have hexy : x.toNat = y.toNat := by omega
        by_cases hlt2 : y.toNat < z.toNat
        · exact absurd (by omega : x.toNat < z.toNat) hxz
        · have heyz : y.toNat = z.toNat := by omega
          have h1' : strcmp as bs ≤ 0 := by
            simpa [strcmp, hlt1, hxy] using h1
          have h2' : strcmp bs cs ≤ 0 := by
            simpa [strcmp, hlt2, hyz] using h2
          have hxz2 : ¬ z.toNat < x.toNat := by omega
          simpa [strcmp, hxz, hxz2] using strcmp_le_trans as bs cs h1' h2'

theorem nameLe_iff (a b : Command) : nameLe a b = true ↔ strcmpLeName a b := by
  simp [nameLe, strcmpLeName]

theorem insertSortedCmd_perm (c : Command) : ∀ l : List Command,
    (insertSortedCmd c l).Perm (c :: l)
  | [] => List.Perm.refl _
  | d :: ds => by
    by_cases h : nameLe c d
    · simp [insertSortedCmd, h]
    · simp only [insertSortedCmd, if_neg h]
      exact ((insertSortedCmd_perm c ds).cons d).trans (List.Perm.swap c d ds)

theorem sortCommands_perm : ∀ l : List Command, (sortCommands l).Perm l
  | [] => List.Perm.refl _
  | c :: cs =>
    (insertSortedCmd_perm c (sortCommands cs)).trans ((sortCommands_perm cs).cons c)

theorem insertSortedCmd_sorted (c : Command) :
    ∀ l : List Command, List.Sorted strcmpLeName l →
      List.Sorted strcmpLeName (insertSortedCmd c l)
  | [], _ => by simp [insertSortedCmd]
  | d :: ds, hl => by
    rw [List.sorted_cons] at hl
    obtain ⟨hd, hds⟩ := hl
    by_cases h : nameLe c d
    · rw [insertSortedCmd, if_pos h, List.sorted_cons]
      refine ⟨?_, List.sorted_cons.mpr ⟨hd, hds⟩⟩
      intro b hb
      rcases List.mem_cons.mp hb with rfl | hb
      · exact (nameLe_iff c b).mp h
      · exact strcmp_le_trans _ _ _ ((nameLe_iff c d).mp h) (hd b hb)
    · rw [insertSortedCmd, if_neg h, List.sorted_cons]
      refine ⟨?_, insertSortedCmd_sorted c ds hds⟩
      intro b hb
      rcases List.mem_cons.mp (((insertSortedCmd_perm c ds).mem_iff).mp hb) with rfl | hb2
      · rcases strcmp_le_total b.name d.name with hbd | hdb
        · exact absurd ((nameLe_iff b d).mpr hbd) h
        · exact hdb
      · exact hd b hb2

theorem sortCommands_sorted : ∀ l : List Command,
    List.Sorted strcmpLeName (sortCommands l)
  | [] => by simp [sortCommands]
  | c :: cs => insertSortedCmd_sorted c (sortCommands cs) (sortCommands_sorted cs)

theorem parseCommand_empty (cl : CommandLine) :
    parseCommand [] cl = ({ cl with argument_type := .NONE }, [receivedEmptyLine]) := rfl

theorem strlcpyVal_pos (old src : CStr) (size : Int) (h : 0 < size) :
    strlcpyVal old src size = src.take (size.toNat - 1) := by
  rw [strlcpyVal, if_neg (by omega), if_neg (by omega)]

theorem parseCommand_fname_space (command : CStr) (cl : CommandLine) (idx : Nat)
    (hfind : command.findIdx? (fun c => decide (c = ' ')) = some idx) :
    (parseCommand command cl).1.function_name = command.take idx := by
  have hne : command ≠ [] := by
    rintro rfl
    simp [List.findIdx?_nil] at hfind
  rw [parseCommand, if_neg (by simpa [List.length_eq_zero] using hne), hfind]
  have htn : ((idx : Int) + 1).toNat - 1 = idx := by omega
  simp [strlcpyVal_pos _ _ _ (by omega : (0 : Int) < (idx : Int) + 1), htn]

theorem parseCommand_space_fits (xs arg : CStr) (cl : CommandLine)
    (hns : ' ' ∉ xs) (hfit : xs.length + arg.length ≤ MAX_COMMAND_SIZE - 2) :
    parseCommand (xs ++ ' ' :: arg) cl =
      ({ cl with
          function_name := xs,
          str_argument := arg,
          int_argument := (strtol0 arg).1,
          argument_type :=
            if (strtol0 arg).2 < arg.length then .STRING else .INT32 }, []) := by
  have hM : MAX_COMMAND_SIZE = 40 := rfl
  have hxs : xs.length + arg.length ≤ 38 := by omega
  have hne : ¬ ((xs ++ ' ' :: arg).length = 0) := by simp
  have hfind : (xs ++ ' ' :: arg).findIdx? (fun c => decide (c = ' ')) = some xs.length := by
    refine findIdx?_append_cons _ _ arg xs ?_ (by simp)
    intro c hc
    simp only [decide_eq_false_iff_not]
    rintro rfl
    exact hns hc
  have hdrop : (xs ++ ' ' :: arg).drop (xs.length + 1) = arg := drop_append_cons xs ' ' arg
  have hfn : strlcpyVal cl.function_name (xs ++ ' ' :: arg) ((xs.length : Int) + 1) = xs := by
    rw [strlcpyVal_pos _ _ _ (by omega)]
    have ht : ((xs.length : Int) + 1).toNat - 1 = xs.length := by omega
    rw [ht, List.take_left]
  have hsa : strlcpyVal cl.str_argument ((xs ++ ' ' :: arg).drop (xs.length + 1))
      ((MAX_COMMAND_SIZE : Int) - (xs.length : Int) - 1) = arg := by
    rw [hdrop, strlcpyVal_pos _ _ _ (by rw [hM]; omega)]
    apply List.take_of_length_le
    rw [hM]
    omega
  rw [parseCommand, if_neg hne, hfind]
  simp only [hfn, hsa]

theorem isDigitOf_eq (base : Nat) (c : Char) :
    isDigitOf base c = decide (rawDigitVal c < base) := by
  rw [isDigitOf, digitVal?]
  split <;> simp [*]

theorem isDigitOf_mono {b1 b2 : Nat} (h : b1 ≤ b2) (c : Char) :
    isDigitOf b1 c = true → isDigitOf b2 c = true := by
  rw [isDigitOf_eq, isDigitOf_eq]
  simp only [decide_eq_true_eq]
  omega

theorem splitSign_length (t : CStr) :
    (splitSign t).2.1 + (splitSign t).2.2.length = t.length := by
  cases t with
  | nil => simp [splitSign]
  | cons c r =>
    by_cases h1 : c = '+'
    · simp [splitSign, h1]
      omega
    · by_cases h2 : c = '-' <;> simp [splitSign, h1, h2] <;> omega

theorem splitBasePrefix_length (u : CStr) :
    (splitBasePrefix u).2.1 + (splitBasePrefix u).2.2.length = u.length := by
  cases u with
  | nil => simp [splitBasePrefix]
  | cons c r =>
    by_cases hc : c = '0'
    · cases r with
      | nil => simp [splitBasePrefix, hc]
      | cons x r2 =>
        by_cases hx : (x = 'x' ∨ x = 'X') ∧ headIsHexDigit r2 = true
        · simp [splitBasePrefix, hc, hx]
          omega
        · simp [splitBasePrefix, hc, hx]
    · simp [splitBasePrefix, hc]

theorem takeWhile_length_le {α : Type} (p : α → Bool) (l : List α) :
    (l.takeWhile p).length ≤ l.length :=
  (List.takeWhile_prefix p).sublist.length_le

theorem strtolNoWs_consumed_empty (t : CStr)
    (h : (splitBasePrefix (splitSign t).2.2).2.2.takeWhile
      (isDigitOf (splitBasePrefix (splitSign t).2.2).1) = []) :
    (strtolNoWs t).2 = 0 := by
  simp [strtolNoWs, h]

theorem strtolNoWs_consumed_nonempty (t : CStr)
    (h : (splitBasePrefix (splitSign t).2.2).2.2.takeWhile
      (isDigitOf (splitBasePrefix (splitSign t).2.2).1) ≠ []) :
    (strtolNoWs t).2 =
      (splitSign t).2.1 + (splitBasePrefix (splitSign t).2.2).2.1 +
        ((splitBasePrefix (splitSign t).2.2).2.2.takeWhile
          (isDigitOf (splitBasePrefix (splitSign t).2.2).1)).length := by
  simp [strtolNoWs, h]

theorem strtolNoWs_le (t : CStr) : (strtolNoWs t).2 ≤ t.length := by
  have h1 := splitSign_length t
  have h2 := splitBasePrefix_length (splitSign t).2.2
  have h3 := takeWhile_length_le (isDigitOf (splitBasePrefix (splitSign t).2.2).1)
    (splitBasePrefix (splitSign t).2.2).2.2
  by_cases h : (splitBasePrefix (splitSign t).2.2).2.2.takeWhile
      (isDigitOf (splitBasePrefix (splitSign t).2.2).1) = []
  · rw [strtolNoWs_consumed_empty t h]
    omega
  · rw [strtolNoWs_consumed_nonempty t h]
    omega

theorem strtol0_le (s : CStr) : (strtol0 s).2 ≤ s.length := by
  have h1 := strtolNoWs_le (s.dropWhile isSpaceChar)
  have h2 : (s.takeWhile isSpaceChar).length + (s.dropWhile isSpaceChar).length = s.length := by
    rw [← List.length_append, List.takeWhile_append_dropWhile]
  by_cases h : (strtolNoWs (s.dropWhile isSpaceChar)).2 = 0
  · simp [strtol0, h]
  · simp [strtol0, h]
    omega

theorem stripSignSpec_eq (t : CStr) : stripSignSpec t = (splitSign t).2.2 := by
  cases t with
  | nil => rfl
  | cons c r =>
    by_cases h1 : c = '+'
    · simp [stripSignSpec, splitSign, h1]
    · by_cases h2 : c = '-' <;> simp [stripSignSpec, splitSign, h1, h2]

theorem takeWhile_full_iff (l : CStr) (b : Nat) (pre total : Nat)
    (htot : pre + l.length = total) (hl : l ≠ []) :
    (l.takeWhile (isDigitOf b) ≠ [] ∧ pre + (l.takeWhile (isDigitOf b)).length = total)
      ↔ l.all (isDigitOf b) = true := by
  have hle := takeWhile_length_le (isDigitOf b) l
  constructor
  · rintro ⟨_, h2⟩
    have hlen : (l.takeWhile (isDigitOf b)).length = l.length := by omega
    have hself := (List.takeWhile_prefix (isDigitOf b)).eq_of_length hlen
    rw [List.all_eq_true]
    exact fun x hx => List.takeWhile_eq_self_iff.mp hself x hx
  · intro hall
    have hself : l.takeWhile (isDigitOf b) = l :=
      List.takeWhile_eq_self_iff.mpr (List.all_eq_true.mp hall)
    rw [hself]
    exact ⟨hl, htot⟩

theorem splitBase_core_iff (u : CStr) :
    ((splitBasePrefix u).2.2.takeWhile (isDigitOf (splitBasePrefix u).1) ≠ [] ∧
      (splitBasePrefix u).2.1 +
        ((splitBasePrefix u).2.2.takeWhile (isDigitOf (splitBasePrefix u).1)).length =
        u.length)
    ↔ bodyLiteral u = true := by
  cases u with
  | nil => simp [splitBasePrefix, bodyLiteral]
  | cons c r =>
    by_cases hc : c = '0'
    · subst hc
      cases r with
      | nil => decide
      | cons x r2 =>
        by_cases hx : (x = 'x' ∨ x = 'X') ∧ headIsHexDigit r2 = true
        · -- hexadecimal prefix accepted
          have hb : splitBasePrefix ('0' :: x :: r2) = (16, 2, r2) := by
            simp [splitBasePrefix, hx]
          rw [hb]
          have hr2 : r2 ≠ [] := by
            rintro rfl
            simp [headIsHexDigit] at hx
          rw [takeWhile_full_iff r2 16 2 (('0' :: x :: r2).length)
            (by simp only [List.length_cons]; omega) hr2]
          simp [bodyLiteral, hx.1, hr2]
        · -- octal: the leading 0 is itself a digit
          have hb : splitBasePrefix ('0' :: x :: r2) = (8, 0, '0' :: x :: r2) := by
            simp [splitBasePrefix, hx]
          rw [hb]
          rw [takeWhile_full_iff ('0' :: x :: r2) 8 0 (('0' :: x :: r2).length)
            (by simp) (by simp)]
          rw [List.all_cons]
          have h0 : isDigitOf 8 '0' = true := by decide
          rw [h0, Bool.true_and]
          by_cases hxm : x = 'x' ∨ x = 'X'
          · -- marker present but no usable hex digit follows: both sides false
            have hhex : headIsHexDigit r2 = false := by
              rcases Bool.eq_false_or_eq_true (headIsHexDigit r2) with h | h
              · exact absurd ⟨hxm, h⟩ hx
              · exact h
            have hxd : isDigitOf 8 x = false := by
              rcases hxm with rfl | rfl <;> decide
            rw [List.all_cons, hxd, Bool.false_and]
            simp only [bodyLiteral, hxm]
            cases r2 with
            | nil => simp
            | cons d r3 =>
              simp only [headIsHexDigit, List.head?_cons] at hhex
              have hd8 : isDigitOf 16 d = false := hhex
              simp [hd8]
          · simp only [bodyLiteral, hxm]
            rw [List.all_cons]
            simp
    · have hb : splitBasePrefix (c :: r) = (10, 0, c :: r) := by
        simp [splitBasePrefix, hc]
      rw [hb]
      rw [takeWhile_full_iff (c :: r) 10 0 ((c :: r).length) (by simp) (by simp)]
      simp [bodyLiteral, hc]

theorem strtolNoWs_consumed_iff (t : CStr) :
    ((strtolNoWs t).2 = t.length ∧ t ≠ []) ↔ isCIntegerLiteral t = true := by
  have hslen := splitSign_length t
  have hblen := splitBasePrefix_length (splitSign t).2.2
  have hdle := takeWhile_length_le (isDigitOf (splitBasePrefix (splitSign t).2.2).1)
    (splitBasePrefix (splitSign t).2.2).2.2
  have hcore := splitBase_core_iff (splitSign t).2.2
  have hlit : isCIntegerLiteral t = bodyLiteral (splitSign t).2.2 := by
    rw [isCIntegerLiteral, stripSignSpec_eq]
  rw [hlit, ← hcore]
  by_cases hdg : (splitBasePrefix (splitSign t).2.2).2.2.takeWhile
      (isDigitOf (splitBasePrefix (splitSign t).2.2).1) = []
  · rw [strtolNoWs_consumed_empty t hdg]
    simp only [hdg]
    constructor
    · rintro ⟨hlen, hne⟩
      exact absurd (List.length_eq_zero.mp hlen.symm) hne
    · rintro ⟨hfalse, _⟩
      exact absurd rfl hfalse
  · rw [strtolNoWs_consumed_nonempty t hdg]
    have hpos : 0 < ((splitBasePrefix (splitSign t).2.2).2.2.takeWhile
        (isDigitOf (splitBasePrefix (splitSign t).2.2).1)).length :=
      List.length_pos.mpr hdg
    constructor
    · rintro ⟨hlen, _⟩
      exact ⟨hdg, by omega⟩
    · rintro ⟨_, hsum⟩
      refine ⟨by omega, ?_⟩
      have : 0 < t.length := by omega
      exact List.length_pos.mp this


theorem strtolNoWs_nil : strtolNoWs [] = (0, 0) := rfl

theorem strtol0_consumed_iff (s : CStr) :
    (strtol0 s).2 = s.length ↔
      (s = [] ∨ isCIntegerLiteral (s.dropWhile isSpaceChar) = true) := by
  have hsplit : (s.takeWhile isSpaceChar).length + (s.dropWhile isSpaceChar).length = s.length := by
    rw [← List.length_append, List.takeWhile_append_dropWhile]
  have hmain := strtolNoWs_consumed_iff (s.dropWhile isSpaceChar)
  by_cases h0 : (strtolNoWs (s.dropWhile isSpaceChar)).2 = 0
  · have hc : (strtol0 s).2 = 0 := by simp [strtol0, h0]
    rw [hc]
    constructor
    · intro h
      exact Or.inl (List.length_eq_zero.mp h.symm)
    · rintro (rfl | hlit)
      · simp
      · obtain ⟨hlen, hne⟩ := hmain.mpr hlit
        rw [h0] at hlen
        exact absurd (List.length_eq_zero.mp hlen.symm) hne
  · have hc : (strtol0 s).2 =
        (s.takeWhile isSpaceChar).length + (strtolNoWs (s.dropWhile isSpaceChar)).2 := by
      simp [strtol0, h0]
    have hle := strtolNoWs_le (s.dropWhile isSpaceChar)
    rw [hc]
    constructor
    · intro h
      refine Or.inr (hmain.mp ⟨by omega, ?_⟩)
      rintro ht
      rw [ht, strtolNoWs_nil] at h0
      exact h0 rfl
    · rintro (rfl | hlit)
      · rw [List.dropWhile_nil, strtolNoWs_nil] at h0
        exact absurd rfl h0
      · obtain ⟨hlen, _⟩ := hmain.mpr hlit
        omega

theorem processSerialInput_len (st : CStr) (b : Char)
    (h : st.length ≤ MAX_COMMAND_SIZE - 1) :
    ((processSerialInput st b).1).length ≤ MAX_COMMAND_SIZE - 1 := by
  have hM : MAX_COMMAND_SIZE = 40 := rfl
  rw [processSerialInput]
  have hd : st.dropLast.length = st.length - 1 := List.length_dropLast st
  split_ifs with h1 h2 h3 h4
  · simp
  · exact h
  · dsimp only
    omega
  · dsimp only
    rw [List.length_append]
    simp only [List.length_cons, List.length_nil]
    omega
  · exact h

theorem runAssembler_len : ∀ (bytes : List Char) (st : CStr),
    st.length ≤ MAX_COMMAND_SIZE - 1 →
      ((runAssembler st bytes).1).length ≤ MAX_COMMAND_SIZE - 1
  | [], _, h => h
  | b :: bs, st, h => by
    simp only [runAssembler]
    exact runAssembler_len bs _ (processSerialInput_len st b h)

theorem processSerialInput_ordinary (st : CStr) (b : Char)
    (h1 : b ≠ '\n') (h2 : b ≠ '\r') (h3 : b ≠ Char.ofNat 8) :
    processSerialInput st b =
      (if st.length < MAX_COMMAND_SIZE - 1 then st ++ [b] else st, none) := by
  rw [processSerialInput, if_neg h1, if_neg h2, if_neg h3]
  split_ifs <;> rfl

theorem runAssembler_ordinary : ∀ (cs : List Char) (st : CStr),
    (∀ c ∈ cs, c ≠ '\n' ∧ c ≠ '\r' ∧ c ≠ Char.ofNat 8) →
    st.length ≤ MAX_COMMAND_SIZE - 1 →
      runAssembler st cs = (st ++ cs.take (MAX_COMMAND_SIZE - 1 - st.length), [])
  | [], st, _, _ => by simp [runAssembler]
  | c :: cs, st, h, hlen => by
    have hM : MAX_COMMAND_SIZE = 40 := rfl
    have hc := h c (by simp)
    have hrest : ∀ x ∈ cs, x ≠ '\n' ∧ x ≠ '\r' ∧ x ≠ Char.ofNat 8 :=
      fun x hx => h x (by simp [hx])
    simp only [runAssembler, processSerialInput_ordinary st c hc.1 hc.2.1 hc.2.2]
    by_cases hfull : st.length < MAX_COMMAND_SIZE - 1
    · rw [if_pos hfull]
      rw [runAssembler_ordinary cs (st ++ [c]) hrest
        (by simp only [List.length_append, List.length_cons, List.length_nil]; omega)]
      simp only [List.append_assoc, List.length_append, List.length_cons, List.length_nil]
      have htake : MAX_COMMAND_SIZE - 1 - st.length = (MAX_COMMAND_SIZE - 1 - (st.length + 1)) + 1 := by
        omega
      rw [htake, List.take_succ_cons]
      simp
    · rw [if_neg hfull]
      rw [runAssembler_ordinary cs st hrest hlen]
      have htake : MAX_COMMAND_SIZE - 1 - st.length = 0 := by omega
      rw [htake]
      simp [htake]

theorem runAssembler_append : ∀ (xs ys : List Char) (st : CStr),
    runAssembler st (xs ++ ys) =
      ((runAssembler (runAssembler st xs).1 ys).1,
       (runAssembler st xs).2 ++ (runAssembler (runAssembler st xs).1 ys).2)
  | [], ys, st => by simp [runAssembler]
  | x :: xs, ys, st => by
    have ih := runAssembler_append xs ys (processSerialInput st x).1
    simp only [List.cons_append, runAssembler, List.append_eq, ih, List.append_assoc]

theorem cmdMatches_iff (cl : CommandLine) (c : Command) :
    cmdMatches cl c = true ↔
      (c.name = cl.function_name ∧ c.parameter_type = cl.argument_type) := by
  simp [cmdMatches]

theorem execute_invoked_iff (command_str : CStr) (cmds : List Command) (fresh : CommandLine) :
    (execute command_str cmds fresh).invoked.isSome = true ↔
      ∃ c ∈ cmds, c.name = (parseCommand command_str fresh).1.function_name ∧
        c.parameter_type = (parseCommand command_str fresh).1.argument_type := by
  cases hf : cmds.findIdx? (cmdMatches (parseCommand command_str fresh).1) with
  | none =>
    simp only [execute, hf]
    constructor
    · intro h
      simp at h
    · rintro ⟨c, hc, hp⟩
      rw [List.findIdx?_eq_none_iff] at hf
      have hfalse := hf c hc
      have htrue := (cmdMatches_iff _ c).mpr hp
      rw [hfalse] at htrue
      exact absurd htrue (by simp)
  | some i =>
    simp only [execute, hf]
    constructor
    · intro _
      have hs : (cmds.findIdx? (cmdMatches (parseCommand command_str fresh).1)).isSome = true := by
        rw [hf]
        rfl
      obtain ⟨c, hc, hp⟩ := (findIdx?_isSome_iff _ _).mp hs
      exact ⟨c, hc, (cmdMatches_iff _ c).mp hp⟩
    · intro _
      rfl

theorem execute_unmatched (command_str : CStr) (cmds : List Command) (fresh : CommandLine)
    (h : ∀ c ∈ cmds, ¬(c.name = (parseCommand command_str fresh).1.function_name ∧
      c.parameter_type = (parseCommand command_str fresh).1.argument_type)) :
    execute command_str cmds fresh =
      { invoked := none,
        output := (parseCommand command_str fresh).2 ++ [notSupportedLine command_str] ++
          (sortCommands cmds).map helpLine,
        registry := sortCommands cmds } := by
  have hf : cmds.findIdx? (cmdMatches (parseCommand command_str fresh).1) = none := by
    rw [List.findIdx?_eq_none_iff]
    intro c hc
    by_cases hb : cmdMatches (parseCommand command_str fresh).1 c = true
    · exact absurd ((cmdMatches_iff _ c).mp hb) (h c hc)
    · simpa using hb
  simp only [execute, hf]
  rfl

/-! ## Claims -/

/-- C1 counterexample: on the line `"cmd "` (a command name, one space,
nothing after), `parseCommand` classifies the argument as `INT32`
(`strtol("")` converts nothing, leaving `end` at the terminator, so
`*end` is 0), not as Text: the claimed `STRING` classification is false. -/
theorem C1_counterexample :
    (parseCommand ("cmd ".toList) freshCL).1.argument_type = InputType.INT32 ∧
    InputType.INT32 ≠ InputType.STRING ∧ InputType.INT32 ≠ InputType.NONE := by
  decide

/-- C1 (amended): for every input line consisting of a command name
followed by exactly one space and nothing after it (the name free of
spaces and short enough to fit the buffers), `parseCommand` classifies
the argument as Integer with value 0 and an empty `str_argument`
(`argument_type = INT32`, `int_argument = 0`, `str_argument = ""`), not
as Text and not as None. -/
theorem C1_amended (xs : CStr) (cl : CommandLine)
    (hns : ' ' ∉ xs) (hlen : xs.length ≤ MAX_COMMAND_SIZE - 2) :
    (parseCommand (xs ++ [' ']) cl).1.argument_type = InputType.INT32 ∧
    (parseCommand (xs ++ [' ']) cl).1.int_argument = 0 ∧
    (parseCommand (xs ++ [' ']) cl).1.str_argument = [] := by
  have h := parseCommand_space_fits xs [] cl hns (by simpa using hlen)
  rw [show xs ++ [' '] = xs ++ ' ' :: ([] : CStr) from rfl, h]
  exact ⟨by simp [show strtol0 [] = (0, 0) from rfl], rfl, rfl⟩

/-- C1 witness: the amended claim at the concrete line `"name "`. -/
theorem C1_witness :
    (parseCommand ("name".toList ++ [' ']) freshCL).1.argument_type = InputType.INT32 ∧
    (parseCommand ("name".toList ++ [' ']) freshCL).1.int_argument = 0 ∧
    (parseCommand ("name".toList ++ [' ']) freshCL).1.str_argument = [] :=
  C1_amended ("name".toList) freshCL (by decide) (by decide)

/-- C2 counterexample: `execute ""` with an empty registry invokes no
handler, but it is not silent: it prints `Received empty command`
followed by the quoted empty input with the `not supported` notice
(the loop in `execute` falls through to the help fallback because
`parseCommand` returns without touching `function_name`). -/
theorem C2_counterexample :
    (execute [] [] freshCL).invoked = none ∧
    (execute [] [] freshCL).output = [receivedEmptyLine, notSupportedLine []] := by
  decide

/-- C2 (amended): when `execute` is given the empty line and the
pre-existing (uninitialized) `function_name` matches no registered
no-argument command, no handler is invoked, but the input is not
silently ignored: `Received empty command` is printed, then the quoted
(empty) raw input with the `not supported` notice, then the full sorted
help listing. -/
theorem C2_amended (cmds : List Command) (cl : CommandLine)
    (h : ∀ c ∈ cmds, ¬(c.name = cl.function_name ∧ c.parameter_type = InputType.NONE)) :
    (execute [] cmds cl).invoked = none ∧
    (execute [] cmds cl).output =
      [receivedEmptyLine, notSupportedLine []] ++ (sortCommands cmds).map helpLine := by
  have h2 : ∀ c ∈ cmds, ¬(c.name = (parseCommand [] cl).1.function_name ∧
      c.parameter_type = (parseCommand [] cl).1.argument_type) := by
    intro c hc
    rw [parseCommand_empty]
    simpa using h c hc
  rw [execute_unmatched [] cmds cl h2]
  exact ⟨rfl, by simp [parseCommand_empty]⟩

/-- C2 witness: the amended claim at the concrete one-entry registry
`[reset]` and the fresh stack contents `freshCL`. -/
theorem C2_witness :
    (execute [] [cmdReset] freshCL).invoked = none ∧
    (execute [] [cmdReset] freshCL).output =
      [receivedEmptyLine, notSupportedLine []] ++ (sortCommands [cmdReset]).map helpLine :=
  C2_amended [cmdReset] freshCL (by decide)

/-- C3 counterexample: a line whose name portion is 40 characters
followed by a space makes `strlcpy(function_name, command,
first_space - command + 1)` write 41 bytes into the 40-byte
`function_name` buffer — the write exceeds the buffer's capacity, so the
unrestricted safety claim is false for lines passed directly to
`execute`. -/
theorem C3_counterexample :
    MAX_COMMAND_SIZE < parseFnameBytes (List.replicate MAX_COMMAND_SIZE 'a' ++ [' ', 'x']) := by
  decide

/-- C3 (amended): for every null-terminated line whose first space is at
an index below `MAX_COMMAND_SIZE` — which covers every line the line
assembler can produce, since those are at most `MAX_COMMAND_SIZE - 1`
characters long — `parseCommand` stores exactly the characters before
the first space into `function_name` and the `strlcpy` write stays
within the `MAX_COMMAND_SIZE`-byte buffer. -/
theorem C3_amended (command : CStr) (cl : CommandLine) (idx : Nat)
    (hfind : command.findIdx? (fun c => decide (c = ' ')) = some idx)
    (hidx : idx < MAX_COMMAND_SIZE) :
    (parseCommand command cl).1.function_name = command.take idx ∧
    parseFnameBytes command ≤ MAX_COMMAND_SIZE := by
  refine ⟨parseCommand_fname_space command cl idx hfind, ?_⟩
  have hne : command ≠ [] := by
    rintro rfl
    simp [List.findIdx?_nil] at hfind
  rw [parseFnameBytes, if_neg (by simpa [List.length_eq_zero] using hne), hfind]
  show strlcpyBytes command ((idx : Int) + 1) ≤ MAX_COMMAND_SIZE
  rw [strlcpyBytes, if_neg (by omega), if_neg (by omega)]
  have h1 : ((idx : Int) + 1).toNat - 1 = idx := by omega
  rw [h1]
  have h2 := Nat.min_le_left idx command.length
  have hM : MAX_COMMAND_SIZE = 40 := rfl
  omega

/-- C3 witness: the amended claim at the concrete line `"ab cd"`. -/
theorem C3_witness :
    (parseCommand ("ab cd".toList) freshCL).1.function_name = ("ab cd".toList).take 2 ∧
    parseFnameBytes ("ab cd".toList) ≤ MAX_COMMAND_SIZE :=
  C3_amended ("ab cd".toList) freshCL 2 (by decide) (by decide)

/-- C5: every registration call (`defineCommand` / `defineIntCommand` /
`defineStringCommand`, all sharing `defineCommandKind`): when the
registry already holds `MAX_COMMANDS` (10) entries the call fails,
prints the warning, and leaves the entries and their count unchanged;
otherwise it appends the new entry (name, kind tag, doc) at the end —
incrementing the count — and succeeds. -/
theorem C5_registration (cmds : List Command) (name doc : CStr) (k : InputType) :
    (MAX_COMMANDS ≤ cmds.length →
      defineCommandKind cmds name k doc =
        { registry := cmds, ok := false, output := [tooManyLine] }) ∧
    (cmds.length < MAX_COMMANDS →
      defineCommandKind cmds name k doc =
        { registry := cmds ++ [{ name := name, doc := doc, parameter_type := k }],
          ok := true, output := [] }) ∧
    defineCommand cmds name doc = defineCommandKind cmds name .NONE doc ∧
    defineIntCommand cmds name doc = defineCommandKind cmds name .INT32 doc ∧
    defineStringCommand cmds name doc = defineCommandKind cmds name .STRING doc := by
  refine ⟨?_, ?_, rfl, rfl, rfl⟩
  · intro h
    rw [defineCommandKind, if_neg (by omega)]
  · intro h
    rw [defineCommandKind, if_pos h]

/-- C5 witness: registration fails on a full 10-entry registry and
appends on an empty one. -/
theorem C5_witness :
    defineCommandKind tenCommands ['z'] InputType.NONE ['d'] =
      { registry := tenCommands, ok := false, output := [tooManyLine] } ∧
    defineCommandKind [] ['z'] InputType.NONE ['d'] =
      { registry := [{ name := ['z'], doc := ['d'], parameter_type := .NONE }],
        ok := true, output := [] } :=
  ⟨(C5_registration tenCommands ['z'] ['d'] InputType.NONE).1 (by decide),
   (C5_registration [] ['z'] ['d'] InputType.NONE).2.1 (by decide)⟩

/-- C4: `execute` invokes a registered handler if and only if some
registry entry's name equals the parsed `function_name` (byte-wise
`strcmp` equality, i.e. equality of the C-string values) and that
entry's `parameter_type` equals the parsed `argument_type`; when no
entry matches on both (name exists with wrong kind, or name absent),
no handler is invoked and the quoted original raw input, the `not
supported` notice and the full sorted help listing are printed. -/
theorem C4_dispatch (command_str : CStr) (cmds : List Command) (fresh : CommandLine) :
    ((execute command_str cmds fresh).invoked.isSome = true ↔
      ∃ c ∈ cmds, c.name = (parseCommand command_str fresh).1.function_name ∧
        c.parameter_type = (parseCommand command_str fresh).1.argument_type) ∧
    ((¬ ∃ c ∈ cmds, c.name = (parseCommand command_str fresh).1.function_name ∧
        c.parameter_type = (parseCommand command_str fresh).1.argument_type) →
      (execute command_str cmds fresh).invoked = none ∧
      (execute command_str cmds fresh).output =
        (parseCommand command_str fresh).2 ++ [notSupportedLine command_str] ++
          (sortCommands cmds).map helpLine) := by
  refine ⟨execute_invoked_iff command_str cmds fresh, ?_⟩
  intro hnone
  have h : ∀ c ∈ cmds, ¬(c.name = (parseCommand command_str fresh).1.function_name ∧
      c.parameter_type = (parseCommand command_str fresh).1.argument_type) :=
    fun c hc hcp => hnone ⟨c, hc, hcp⟩
  rw [execute_unmatched command_str cmds fresh h]
  exact ⟨rfl, rfl⟩

/-- C4 witness: `"ap 1"` against a registry holding the Integer command
`ap` dispatches (the matching entry exists, so a handler is invoked). -/
theorem C4_witness :
    (execute ("ap 1".toList) [cmdAp] freshCL).invoked.isSome = true :=
  (C4_dispatch ("ap 1".toList) [cmdAp] freshCL).1.mpr (by decide)

/-- C6 counterexample: on the line `"n "` the raw argument after the
space is the empty string; it does not parse as a signed C-style
integer literal, yet `parseCommand` classifies it as Integer — the
claimed "Integer exactly when the whole text parses as a literal"
equivalence is false. -/
theorem C6_counterexample :
    (parseCommand ("n ".toList) freshCL).1.argument_type = InputType.INT32 ∧
    isCIntegerLiteral ((parseCommand ("n ".toList) freshCL).1.str_argument) = false := by
  decide

/-- C6 (amended): for every input line `name ++ " " ++ arg` that fits
the buffers (no space in the name), `parseCommand` classifies the raw
argument text as Integer exactly when that text is empty or, after
optional leading whitespace (which `strtol` skips), parses entirely as
a signed C-style integer literal (optional sign, `0x`/`0` prefix with
base auto-detection, else decimal) with no trailing non-numeric
characters; any partial parse yields classification Text, never a parse
error; the decoded `strtol` value (e.g. 255 for `"0xFF"`) is stored in
`int_argument` either way. -/
theorem C6_amended (xs arg : CStr) (cl : CommandLine)
    (hns : ' ' ∉ xs) (hfit : xs.length + arg.length ≤ MAX_COMMAND_SIZE - 2) :
    (parseCommand (xs ++ ' ' :: arg) cl).1.str_argument = arg ∧
    ((parseCommand (xs ++ ' ' :: arg) cl).1.argument_type = InputType.INT32 ↔
      (arg = [] ∨ isCIntegerLiteral (arg.dropWhile isSpaceChar) = true)) ∧
    ((parseCommand (xs ++ ' ' :: arg) cl).1.argument_type = InputType.STRING ↔
      ¬(arg = [] ∨ isCIntegerLiteral (arg.dropWhile isSpaceChar) = true)) ∧
    (parseCommand (xs ++ ' ' :: arg) cl).1.int_argument = (strtol0 arg).1 := by
  rw [parseCommand_space_fits xs arg cl hns hfit]
  have hle := strtol0_le arg
  have hiff := strtol0_consumed_iff arg
  refine ⟨rfl, ?_, ?_, rfl⟩
  · show ((if (strtol0 arg).2 < arg.length then InputType.STRING else InputType.INT32)
        = InputType.INT32) ↔ _
    rw [← hiff]
    by_cases h : (strtol0 arg).2 < arg.length
    · rw [if_pos h]
      constructor
      · intro habs
        exact absurd habs (by decide)
      · intro he
        omega
    · rw [if_neg h]
      constructor
      · intro _
        omega
      · intro _
        rfl
  · show ((if (strtol0 arg).2 < arg.length then InputType.STRING else InputType.INT32)
        = InputType.STRING) ↔ _
    rw [← hiff]
    by_cases h : (strtol0 arg).2 < arg.length
    · rw [if_pos h]
      constructor
      · intro _
        omega
      · intro _
        rfl
    · rw [if_neg h]
      constructor
      · intro habs
        exact absurd habs (by decide)
      · intro hne
        exact absurd (by omega) hne

/-- C6 witness: the amended claim at the concrete line `"ap 0xFF"` —
the hexadecimal argument is classified Integer. -/
theorem C6_witness :
    (parseCommand ("ap".toList ++ ' ' :: "0xFF".toList) freshCL).1.str_argument =
      "0xFF".toList ∧
    ((parseCommand ("ap".toList ++ ' ' :: "0xFF".toList) freshCL).1.argument_type =
        InputType.INT32 ↔
      ("0xFF".toList = [] ∨
        isCIntegerLiteral (("0xFF".toList).dropWhile isSpaceChar) = true)) ∧
    ((parseCommand ("ap".toList ++ ' ' :: "0xFF".toList) freshCL).1.argument_type =
        InputType.STRING ↔
      ¬("0xFF".toList = [] ∨
        isCIntegerLiteral (("0xFF".toList).dropWhile isSpaceChar) = true)) ∧
    (parseCommand ("ap".toList ++ ' ' :: "0xFF".toList) freshCL).1.int_argument =
      (strtol0 ("0xFF".toList)).1 :=
  C6_amended ("ap".toList) ("0xFF".toList) freshCL (by decide) (by decide)

/-- C7 counterexample: printing the help listing for an unmatched input
sorts the registry array in place (`qsort`), so an `execute` call can
reorder the stored entries: with the registry `[b, a]` the post-state is
`[a, b]` — the "stored entries, including their order, stay unchanged"
claim is false. -/
theorem C7_counterexample :
    (execute ['z'] [cmdB, cmdA] freshCL).registry ≠ [cmdB, cmdA] := by
  decide

/-- C7 (amended): no shell operation adds or removes registry entries
after setup: `execute` leaves the registry a permutation of what it was
(equal as a multiset; the help fallback may reorder it in place via
`qsort`), a successful dispatch leaves it exactly unchanged, and the
help listing itself only permutes it. -/
theorem C7_amended (input : CStr) (cmds : List Command) (cl : CommandLine) :
    (execute input cmds cl).registry.Perm cmds ∧
    ((execute input cmds cl).invoked.isSome = true →
      (execute input cmds cl).registry = cmds) ∧
    (listAvailableCommands cmds).1.Perm cmds := by
  refine ⟨?_, ?_, sortCommands_perm cmds⟩
  · cases hf : cmds.findIdx? (cmdMatches (parseCommand input cl).1) with
    | some i =>
      simp only [execute, hf]
      exact List.Perm.refl cmds
    | none =>
      simp only [execute, hf]
      exact sortCommands_perm cmds
  · cases hf : cmds.findIdx? (cmdMatches (parseCommand input cl).1) with
    | some i =>
      intro _
      simp only [execute, hf]
    | none =>
      intro habs
      simp only [execute, hf] at habs
      exact absurd habs (by simp)

/-- C7 witness: the amended claim at a concrete two-entry registry. -/
theorem C7_witness :
    (execute ['z'] [cmdA, cmdB] freshCL).registry.Perm [cmdA, cmdB] :=
  (C7_amended ['z'] [cmdA, cmdB] freshCL).1

/-- C8: the help listing renders exactly the sorted registry, one
`helpLine` (`"  name doc."`) per entry: the printed sequence is the
`helpLine` image of a permutation of the registered entries (every entry
exactly once) ordered lexicographically by name under the total order
`strcmp` induces (ASCII/byte comparison). -/
theorem C8_helpListing (cmds : List Command) :
    (listAvailableCommands cmds).2 = (sortCommands cmds).map helpLine ∧
    (sortCommands cmds).Perm cmds ∧
    List.Sorted strcmpLeName (sortCommands cmds) :=
  ⟨rfl, sortCommands_perm cmds, sortCommands_sorted cmds⟩

/-- C8 witness: the help listing of the concrete registry `[b, a]`. -/
theorem C8_witness :
    (listAvailableCommands [cmdB, cmdA]).2 = (sortCommands [cmdB, cmdA]).map helpLine ∧
    (sortCommands [cmdB, cmdA]).Perm [cmdB, cmdA] ∧
    List.Sorted strcmpLeName (sortCommands [cmdB, cmdA]) :=
  C8_helpListing [cmdB, cmdA]

/-- C9: the line assembler never overruns its buffer: an ordinary byte
arriving with the cursor at `MAX_COMMAND_SIZE - 1` is silently dropped,
the cursor never exceeds `MAX_COMMAND_SIZE - 1` for any byte sequence
fed from the initial state, and a line longer than the buffer is
truncated to `MAX_COMMAND_SIZE - 1` characters (plus the terminator)
when executed. -/
theorem C9_assembler :
    (∀ (st : CStr) (b : Char), st.length = MAX_COMMAND_SIZE - 1 →
      b ≠ '\n' → b ≠ '\r' → b ≠ Char.ofNat 8 → processSerialInput st b = (st, none)) ∧
    (∀ bytes : List Char, ((runAssembler [] bytes).1).length ≤ MAX_COMMAND_SIZE - 1) ∧
    (∀ cs : List Char, (∀ c ∈ cs, c ≠ '\n' ∧ c ≠ '\r' ∧ c ≠ Char.ofNat 8) →
      (runAssembler [] (cs ++ ['\n'])).2 = [cs.take (MAX_COMMAND_SIZE - 1)]) := by
  refine ⟨?_, ?_, ?_⟩
  · intro st b hlen h1 h2 h3
    rw [processSerialInput_ordinary st b h1 h2 h3, if_neg (by omega)]
  · intro bytes
    exact runAssembler_len bytes [] (by simp)
  · intro cs h
    rw [runAssembler_append cs ['\n'] [], runAssembler_ordinary cs [] h (by simp)]
    simp [runAssembler, processSerialInput]

/-- C9 witness: feeding 45 ordinary bytes and a newline from the empty
state executes the line truncated to 39 characters. -/
theorem C9_witness :
    (runAssembler [] (List.replicate 45 'q' ++ ['\n'])).2 =
      [(List.replicate 45 'q').take (MAX_COMMAND_SIZE - 1)] :=
  C9_assembler.2.2 (List.replicate 45 'q') (by decide)

/-- C10: on the empty string `parseCommand` writes only the
`argument_type` field (setting it to `NONE`), leaving `function_name`,
`int_argument` and `str_argument` exactly as they were; consequently
`execute ""`, whose `CommandLine` is freshly declared and unassigned,
scans the registry against whatever `function_name` value the stack
already held: a handler is matched exactly when some entry's name
equals that stale value with parameter kind `NONE`. -/
theorem C10_frame (cl : CommandLine) (cmds : List Command) :
    (parseCommand [] cl).1.function_name = cl.function_name ∧
    (parseCommand [] cl).1.int_argument = cl.int_argument ∧
    (parseCommand [] cl).1.str_argument = cl.str_argument ∧
    (parseCommand [] cl).1.argument_type = InputType.NONE ∧
    ((execute [] cmds cl).invoked.isSome = true ↔
      ∃ c ∈ cmds, c.name = cl.function_name ∧ c.parameter_type = InputType.NONE) := by
  refine ⟨rfl, rfl, rfl, rfl, ?_⟩
  have h := execute_invoked_iff [] cmds cl
  simpa [parseCommand_empty] using h

/-- C10 witness: with stack contents naming `reset` and a registry
holding the no-argument command `reset`, `execute ""` matches that
entry off the stale `function_name`. -/
theorem C10_witness :
    (parseCommand [] staleCL).1.function_name = staleCL.function_name ∧
    (parseCommand [] staleCL).1.int_argument = staleCL.int_argument ∧
    (parseCommand [] staleCL).1.str_argument = staleCL.str_argument ∧
    (parseCommand [] staleCL).1.argument_type = InputType.NONE ∧
    ((execute [] [cmdReset] staleCL).invoked.isSome = true ↔
      ∃ c ∈ [cmdReset], c.name = staleCL.function_name ∧
        c.parameter_type = InputType.NONE) :=
  C10_frame staleCL [cmdReset]

end Shell
